import Mathlib

/-!
Verification of the Penrose P3 tiling generator (`src/penrose.js`).

Numeric model.  JavaScript numbers are IEEE doubles standing for real
numbers; the spec (§3) treats coordinates as "finite real numbers".  We
embed them in the computable field ℚ(√5):

* `Qv` is an unnormalized rational `num / den` (we avoid `Rat` so that every
  arithmetic operation is a plain structural definition that the kernel can
  evaluate).  All values produced by the embedded code have `den > 0`; a
  `den = 0` component would correspond to a JS division by zero (`Infinity`),
  which the spec already calls a latent, unguarded edge case.
* `Q5` is a pair `a + b·√5` of `Qv`s.  The program's only irrational
  constant is `psi = (√5 - 1)/2`, so every quantity the program computes
  lies in this field.  Two `Qv`/`Q5` values are *value-equal* (`veq`) when
  they denote the same rational / the same element of ℚ(√5); `√5` being
  irrational, `a + b√5 = a' + b'√5` iff both components agree.

`Math.sqrt` appears in the source only inside `Complex.abs`, and every use
of `abs` under verification is either a comparison `abs < TOL` or feeds a
squared quantity, so we carry the *square* `absSq` instead and compare with
`TOL^2`; for `t ≥ 0`, `abs < t ↔ absSq < t²`, so nothing is lost.
-/

/-- An unnormalized rational number `num / den`.  `den` is a natural number;
all values built by the embedded program keep `den > 0`. -/
structure Qv where
  num : Int
  den : Nat
deriving DecidableEq

/-- Embed an integer. -/
def Qv.ofInt (n : Int) : Qv := ⟨n, 1⟩

/-- Rational addition (cross multiplication, no normalization). -/
def Qv.add (x y : Qv) : Qv := ⟨x.num * y.den + y.num * x.den, x.den * y.den⟩

/-- Rational subtraction. -/
def Qv.sub (x y : Qv) : Qv := ⟨x.num * y.den - y.num * x.den, x.den * y.den⟩

/-- Rational negation. -/
def Qv.neg (x : Qv) : Qv := ⟨-x.num, x.den⟩

/-- Rational multiplication. -/
def Qv.mul (x y : Qv) : Qv := ⟨x.num * y.num, x.den * y.den⟩

/-- Rational inverse: `d/n`, with the sign moved to the numerator.
`(0/d)⁻¹` yields a `den = 0` value, the analogue of JS `Infinity`. -/
def Qv.inv (x : Qv) : Qv :=
  if x.num < 0 then ⟨-(x.den : Int), x.num.natAbs⟩ else ⟨(x.den : Int), x.num.natAbs⟩

/-- Rational division. -/
def Qv.div (x y : Qv) : Qv := x.mul y.inv

/-- Value equality of unnormalized rationals: `a/b = c/d ↔ a·d = c·b`. -/
def Qv.veq (x y : Qv) : Prop := x.num * (y.den : Int) = y.num * (x.den : Int)

/-- An element `a + b·√5` of the field ℚ(√5). -/
structure Q5 where
  a : Qv
  b : Qv
deriving DecidableEq

/-- Embed an integer into ℚ(√5). -/
def Q5.ofInt (n : Int) : Q5 := ⟨Qv.ofInt n, Qv.ofInt 0⟩

/-- The square root of five: `0 + 1·√5` (JS `Math.sqrt(5)`). -/
def sqrt5 : Q5 := ⟨Qv.ofInt 0, Qv.ofInt 1⟩

/-- Addition in ℚ(√5). -/
def Q5.add (x y : Q5) : Q5 := ⟨x.a.add y.a, x.b.add y.b⟩

/-- Subtraction in ℚ(√5). -/
def Q5.sub (x y : Q5) : Q5 := ⟨x.a.sub y.a, x.b.sub y.b⟩

/-- Negation in ℚ(√5). -/
def Q5.neg (x : Q5) : Q5 := ⟨x.a.neg, x.b.neg⟩

/-- Multiplication: `(a + b√5)(c + d√5) = (ac + 5bd) + (ad + bc)√5`. -/
def Q5.mul (x y : Q5) : Q5 :=
  ⟨(x.a.mul y.a).add ((Qv.ofInt 5).mul (x.b.mul y.b)),
   (x.a.mul y.b).add (x.b.mul y.a)⟩

/-- Inverse: `(a + b√5)⁻¹ = (a - b√5)/(a² - 5b²)`. -/
def Q5.inv (x : Q5) : Q5 :=
  let d : Qv := (x.a.mul x.a).sub ((Qv.ofInt 5).mul (x.b.mul x.b))
  ⟨x.a.div d, (x.b.neg).div d⟩

/-- Division in ℚ(√5). -/
def Q5.div (x y : Q5) : Q5 := x.mul y.inv

/-- Value equality in ℚ(√5): componentwise (√5 is irrational). -/
def Q5.veq (x y : Q5) : Prop := x.a.veq y.a ∧ x.b.veq y.b

/-- `posP x` holds iff the real number `a + b√5` is `> 0` (under the
`den > 0` convention).  Case analysis on the signs of the numerators,
comparing `a²` with `5·b²` by cross multiplication when the two parts pull
in opposite directions. -/
def Q5.posP (x : Q5) : Prop :=
  (0 ≤ x.a.num ∧ 0 ≤ x.b.num ∧ 0 < x.a.num + x.b.num) ∨
  (0 ≤ x.a.num ∧ x.b.num < 0 ∧
    5 * x.b.num ^ 2 * (x.a.den : Int) ^ 2 < x.a.num ^ 2 * (x.b.den : Int) ^ 2) ∨
  (x.a.num < 0 ∧ 0 ≤ x.b.num ∧
    x.a.num ^ 2 * (x.b.den : Int) ^ 2 < 5 * x.b.num ^ 2 * (x.a.den : Int) ^ 2)

instance (x : Q5) : Decidable (Q5.posP x) := by
  unfold Q5.posP
  infer_instance

/-- Boolean sign test for ℚ(√5): the JS comparison `x > 0`. -/
def Q5.posb (x : Q5) : Bool := decide (Q5.posP x)

/-- Strict order on ℚ(√5): `x < y  ↔  0 < y - x`. -/
def Q5.ltb (x y : Q5) : Bool := Q5.posb (y.sub x)

/-- JS `Math.abs` on a real value of ℚ(√5). -/
def Q5.absv (x : Q5) : Q5 := if Q5.ltb x (Q5.ofInt 0) then x.neg else x

/-- A point of the plane (`class Complex` of the source, `penrose.js:16-71`);
field names follow the source. -/
structure Complexv where
  real : Q5
  imag : Q5
deriving DecidableEq

/-- `Complex.plus` (`penrose.js:22`). -/
def Complexv.plus (z w : Complexv) : Complexv := ⟨z.real.add w.real, z.imag.add w.imag⟩

/-- `Complex.minus` (`penrose.js:26`). -/
def Complexv.minus (z w : Complexv) : Complexv := ⟨z.real.sub w.real, z.imag.sub w.imag⟩

/-- `Complex.neg` (`penrose.js:30`). -/
def Complexv.negc (z : Complexv) : Complexv := ⟨z.real.neg, z.imag.neg⟩

/-- `Complex.mult(c)` with a (finite) *number* argument: the
`Number.isFinite(c)` branch of `penrose.js:43-44`. -/
def Complexv.smul (z : Complexv) (k : Q5) : Complexv := ⟨z.real.mul k, z.imag.mul k⟩

/-- `Complex.mult(c)` with a *Complex* argument (`penrose.js:46-49`). -/
def Complexv.multc (z c : Complexv) : Complexv :=
  ⟨(z.real.mul c.real).sub (z.imag.mul c.imag),
   (z.real.mul c.imag).add (z.imag.mul c.real)⟩

/-- `Complex.div(c)` with a (finite) *number* argument: the
`Number.isFinite(c)` branch of `penrose.js:35`. -/
def Complexv.divScalar (z : Complexv) (k : Q5) : Complexv := ⟨z.real.div k, z.imag.div k⟩

/-- `Complex.cross` (`penrose.js:52-54`). -/
def Complexv.cross (z w : Complexv) : Q5 := (z.real.mul w.imag).sub (z.imag.mul w.real)

/-- `Complex.middle` (`penrose.js:56-58`). -/
def Complexv.middle (z w : Complexv) : Complexv := (z.plus w).divScalar (Q5.ofInt 2)

/-- The *square* of `Complex.abs` (`penrose.js:60-62`), i.e.
`real² + imag²`.  The source returns `Math.sqrt` of this; every verified use
compares `abs` against a nonnegative bound, which we do on squares. -/
def Complexv.absSq (z : Complexv) : Q5 := (z.real.mul z.real).add (z.imag.mul z.imag)

/-- `Complex.conjugate` (`penrose.js:64-66`). -/
def Complexv.conjc (z : Complexv) : Complexv := ⟨z.real, z.imag.neg⟩

/-- Value equality of points: componentwise in ℚ(√5). -/
def Complexv.veq (z w : Complexv) : Prop := z.real.veq w.real ∧ z.imag.veq w.imag

/-- `psi = (Math.sqrt(5) - 1) / 2` (`penrose.js:12`). -/
def psi : Q5 := (sqrt5.sub (Q5.ofInt 1)).div (Q5.ofInt 2)

/-- `psi2 = 1 - psi` (`penrose.js:14`). -/
def psi2 : Q5 := (Q5.ofInt 1).sub psi

/-- The two concrete Robinson-triangle variants: `BtileL` and `BtileS`. -/
inductive TileKind where
  | L : TileKind
  | S : TileKind
deriving DecidableEq

/-- A Robinson triangle with its concrete variant: `A` and `C` are the base
vertices, `B` the apex (`class RobinsonTriangle`, `penrose.js:73-162`,
subclassed by `BtileL`/`BtileS` which add no state). -/
structure Tile where
  kind : TileKind
  A : Complexv
  B : Complexv
  C : Complexv
deriving DecidableEq

/-- `RobinsonTriangle.centre`: midpoint of `A` and `C` (`penrose.js:87-93`). -/
def Tile.centre (t : Tile) : Complexv := t.A.middle t.C

/-- `RobinsonTriangle.conjugate` (`penrose.js:150-157`): reflect the three
vertices about the x-axis; `new this.constructor(...)` keeps the variant. -/
def Tile.conjugate (t : Tile) : Tile := ⟨t.kind, t.A.conjc, t.B.conjc, t.C.conjc⟩

/-- `BtileL.inflate` (`penrose.js:173-186`) and `BtileS.inflate`
(`penrose.js:202-209`): the P3 substitution rules. -/
def Tile.inflate (t : Tile) : List Tile :=
  match t.kind with
  | TileKind.L =>
    let D := (t.A.smul psi2).plus (t.C.smul psi)
    let E := (t.A.smul psi2).plus (t.B.smul psi)
    [⟨TileKind.L, D, E, t.A⟩, ⟨TileKind.S, E, D, t.B⟩, ⟨TileKind.L, t.C, D, t.B⟩]
  | TileKind.S =>
    let D := (t.A.smul psi).plus (t.B.smul psi2)
    [⟨TileKind.S, D, t.C, t.A⟩, ⟨TileKind.L, t.C, D, t.B⟩]

/-- Value equality of tiles: same variant, value-equal vertices. -/
def Tile.veq (t u : Tile) : Prop :=
  t.kind = u.kind ∧ t.A.veq u.A ∧ t.B.veq u.B ∧ t.C.veq u.C

instance (x y : Qv) : Decidable (Qv.veq x y) := inferInstanceAs (Decidable (_ = _))

instance (x y : Q5) : Decidable (Q5.veq x y) := inferInstanceAs (Decidable (_ ∧ _))

instance (z w : Complexv) : Decidable (Complexv.veq z w) := inferInstanceAs (Decidable (_ ∧ _))

instance (t u : Tile) : Decidable (Tile.veq t u) := inferInstanceAs (Decidable (_ ∧ _))


/-- The P3 substitution data for a Large tile, as the spec words it:
`ψ = (√5-1)/2`, children built from `D = A·ψ² + C·ψ`, `E = A·ψ² + B·ψ`. -/
def specPsi : Q5 := (sqrt5.sub (Q5.ofInt 1)).div (Q5.ofInt 2)

/-- The spec's `ψ²` (literally `ψ·ψ`; the source uses `psi2 = 1 - psi`). -/
def specPsiSq : Q5 := specPsi.mul specPsi

/-- The spec's `D = A·ψ² + C·ψ` for a Large tile. -/
def specLargeD (A C : Complexv) : Complexv := (A.smul specPsiSq).plus (C.smul specPsi)

/-- The spec's `E = A·ψ² + B·ψ` for a Large tile. -/
def specLargeE (A B : Complexv) : Complexv := (A.smul specPsiSq).plus (B.smul specPsi)

/-- The spec's `D = A·ψ + B·ψ²` for a Small tile. -/
def specSmallD (A B : Complexv) : Complexv := (A.smul specPsi).plus (B.smul specPsiSq)

/-- The data of the SVG arc command produced by the template `arc`
(`penrose.js:6-7`): `M start A r r 0 0 0 end`.  The two flags and the sweep
flag are the literal constants `0 0 0` of the template.  The radius is
carried as its square `r2` (see the header on `absSq`); the start and end
points are exact. -/
structure ArcD where
  start : Complexv
  r2 : Q5
  stop : Complexv
deriving DecidableEq

/-- `RobinsonTriangle.get_arc_d` (`penrose.js:107-133`).

The translation returns `none` when `half_arc` is true: at `penrose.js:124`
the source evaluates `U.add(...)`, but `class Complex` defines no method
`add` (addition is `plus`, `penrose.js:22`), so every `half_arc` call
throws a `TypeError` regardless of the numeric values involved. -/
def get_arc_d (U V W : Complexv) (half_arc : Bool) : Option ArcD :=
  let start := U.middle V
  let endp := U.middle W
  let r2 := ((V.minus U).divScalar (Q5.ofInt 2)).absSq
  if half_arc then
    none
  else
    let us := start.minus U
    let ue := endp.minus U
    if Q5.posb (us.cross ue) then some ⟨endp, r2, start⟩ else some ⟨start, r2, endp⟩

/-- Concrete arc input for exercising `get_arc_d`: `U = 0`. -/
def arcU : Complexv := ⟨Q5.ofInt 0, Q5.ofInt 0⟩

/-- Concrete arc input: `V = 2`. -/
def arcV : Complexv := ⟨Q5.ofInt 2, Q5.ofInt 0⟩

/-- Concrete arc input: `W = 2i`. -/
def arcW : Complexv := ⟨Q5.ofInt 0, Q5.ofInt 2⟩

/-- `TOL = 1.e-5` (`penrose.js:10`). -/
def TOL5 : Q5 := ⟨⟨1, 100000⟩, ⟨0, 1⟩⟩

/-- `TOL²`: `abs(z) < TOL` is compared as `absSq(z) < TOL²` (see `absSq`). -/
def TOL5sq : Q5 := TOL5.mul TOL5

/-- The three-way sort comparator of `remove_dupes` (`penrose.js:277-281`),
acting on `(centre, tile)` pairs (the source also stores the original array
index, which nothing reads afterwards):

* centres within `TOL` in both components: `0` (a tie);
* real parts within `TOL` (imaginary parts not): the imaginary difference;
* otherwise: the real difference. -/
def tileCmp (x y : Complexv × Tile) : Q5 :=
  let dr := x.1.real.sub y.1.real
  let di := x.1.imag.sub y.1.imag
  if dr.absv.ltb TOL5 && di.absv.ltb TOL5 then Q5.ofInt 0
  else if dr.absv.ltb TOL5 then di
  else dr

/-- The order relation induced by the comparator for `Array.prototype.sort`:
`x` may precede `y` iff the comparator does not return a positive value. -/
def tileLe (x y : Complexv × Tile) : Prop := Q5.posb (tileCmp x y) = false

instance : DecidableRel tileLe := fun _ _ => inferInstanceAs (Decidable (_ = _))

/-- The `Array.prototype.sort` call of `remove_dupes`.  ECMA-262 requires a
*stable* sort; insertion sort is the canonical stable comparison sort.  (For
comparators that are not consistent total orders the resulting order is
implementation-defined; the concrete ensembles evaluated below are already
pairwise in `tileLe` order, where every stable sort returns the same list.) -/
def sortEntries (l : List (Complexv × Tile)) : List (Complexv × Tile) :=
  List.insertionSort tileLe l

/-- One entry of the post-sort linear scan of `remove_dupes`
(`penrose.js:281-283`): element `0` is always kept; element `i > 0` is
dropped exactly when its centre is within `TOL` (Euclidean) of the centre of
`arr[i-1]` — the *immediately preceding element of the sorted array*,
whether or not that element was itself kept. -/
def keepAt (arr : List (Complexv × Tile)) (i : Nat) : Option Tile :=
  match arr[i]? with
  | none => none
  | some item =>
    if i = 0 then some item.2
    else
      match arr[i-1]? with
      | none => some item.2
      | some prev =>
        if ((item.1.minus prev.1).absSq).ltb TOL5sq then none else some item.2

/-- `PenroseP3.remove_dupes` (`penrose.js:267-284`): pair each tile with its
rhombus centre, sort with `tileCmp`, then keep the elements whose `keepAt`
test passes (the `map(...).filter(Boolean)` of the source). -/
def remove_dupes (l : List Tile) : List Tile :=
  let arr := sortEntries (l.map fun e => (Tile.centre e, e))
  (List.range arr.length).filterMap (keepAt arr)

/-- Recursive form of the post-sort scan: drop an element iff its centre is
within `TOL` of the *previous array element* (kept or not). -/
def dropNearPrev (prev : Complexv) : List (Complexv × Tile) → List Tile
  | [] => []
  | e :: rest =>
    if ((e.1.minus prev).absSq).ltb TOL5sq then dropNearPrev e.1 rest
    else e.2 :: dropNearPrev e.1 rest

/-- The full scan in recursive form: the first element is always kept. -/
def dedupeScan : List (Complexv × Tile) → List Tile
  | [] => []
  | x :: rest => x.2 :: dropNearPrev x.1 rest

/-- The scan as claim C3 words it: drop an element iff its centre is within
`TOL` of the previously *kept* tile's centre. -/
def dropNearKept (kept : Complexv) : List (Complexv × Tile) → List Tile
  | [] => []
  | e :: rest =>
    if ((e.1.minus kept).absSq).ltb TOL5sq then dropNearKept kept rest
    else e.2 :: dropNearKept e.1 rest

/-- `removeDuplicates` as claim C3 describes it: the same sort, then a scan
relative to the last kept tile. -/
def removeDupesClaimed (l : List Tile) : List Tile :=
  match sortEntries (l.map fun e => (Tile.centre e, e)) with
  | [] => []
  | x :: rest => x.2 :: dropNearKept x.1 rest

/-- A Large tile whose rhombus centre is `(num/2000000, 0)`: `A` is the
rational point `num/1000000` on the x-axis, `B = i`, `C = 0`. -/
def dupeTileRe (num : Int) : Tile :=
  ⟨TileKind.L,
   ⟨⟨⟨num, 1000000⟩, ⟨0, 1⟩⟩, ⟨⟨0, 1⟩, ⟨0, 1⟩⟩⟩,
   ⟨⟨⟨0, 1⟩, ⟨0, 1⟩⟩, ⟨⟨1, 1⟩, ⟨0, 1⟩⟩⟩,
   ⟨⟨⟨0, 1⟩, ⟨0, 1⟩⟩, ⟨⟨0, 1⟩, ⟨0, 1⟩⟩⟩⟩

/-- Three tiles whose centres `0, 8e-6, 1.6e-5` form a chain: consecutive
centres are within `TOL = 1e-5` of each other, but the outer pair is not. -/
def chainTiles : List Tile := [dupeTileRe 0, dupeTileRe 16, dupeTileRe 32]

/-- Adjacent separation: the centre of `y` is *not* within `TOL` of the
centre of `x` (in the orientation the scan tests). -/
def farApart (x y : Complexv × Tile) : Prop :=
  ((y.1.minus x.1).absSq).ltb TOL5sq = false

instance : DecidableRel farApart := fun _ _ => inferInstanceAs (Decidable (_ = _))

/-- A Large tile with centre `(nr/2000000, ni/2000000)`: `A` is the point
`(nr/1000000, ni/1000000)`, `B = i`, `C = 0`. -/
def dupeTileC (nr ni : Int) : Tile :=
  ⟨TileKind.L,
   ⟨⟨⟨nr, 1000000⟩, ⟨0, 1⟩⟩, ⟨⟨ni, 1000000⟩, ⟨0, 1⟩⟩⟩,
   ⟨⟨⟨0, 1⟩, ⟨0, 1⟩⟩, ⟨⟨1, 1⟩, ⟨0, 1⟩⟩⟩,
   ⟨⟨⟨0, 1⟩, ⟨0, 1⟩⟩, ⟨⟨0, 1⟩, ⟨0, 1⟩⟩⟩⟩

/-- Three tiles with centres `(0,0)`, `(6e-6, -6e-6)` and `(-2e-6, 2e-6)`:
every pair compares as a tie (both coordinate differences under `TOL`), the
middle centre is within `TOL` of the first, the third is within `TOL` of the
first but not of the second. -/
def cluster3 : List Tile := [dupeTileC 0 0, dupeTileC 12 (-12), dupeTileC (-4) 4]

/-- A value passed as a vertex argument to the triangle constructors:
either a (finite) JS number or a `Complex` instance (`penrose.js:77-85`).
Every number representable in the model is finite, matching the
`Number.isFinite` test of the source. -/
inductive JsVal where
  | num : Q5 → JsVal
  | pt : Complexv → JsVal

/-- The vertex normalisation of the `RobinsonTriangle` constructor
(`penrose.js:82-84`): `Number.isFinite(A) ? new Complex(A, 0) : A`. -/
def liftVertex : JsVal → Complexv
  | JsVal.num x => ⟨x, Q5.ofInt 0⟩
  | JsVal.pt z => z

/-- The `RobinsonTriangle` constructor (also the `BtileL`/`BtileS`
constructors, which just call `super`): store the three normalised
vertices. -/
def mkRobinson (k : TileKind) (a b c : JsVal) : Tile :=
  ⟨k, liftVertex a, liftVertex b, liftVertex c⟩

/-- A tile colour option: a constant colour string, or a colour-computing
callback function of the tile (`penrose.js:349-361`). -/
inductive ColourSpec where
  | const : String → ColourSpec
  | fn : (Tile → String) → ColourSpec

/-- Whether a colour option is a constant rather than a callback. -/
def ColourSpec.isConst : ColourSpec → Bool
  | ColourSpec.const _ => true
  | ColourSpec.fn _ => false

/-- The configuration record of `PenroseP3` (`penrose.js:231-249`), after
merging with the defaults; numeric options live in ℚ(√5). -/
structure Config where
  width : String
  height : String
  strokeColour : String
  baseStrokeWidth : Q5
  margin : Q5
  tileOpacity : Q5
  randomTileColours : Bool
  StileColour : ColourSpec
  LtileColour : ColourSpec
  AarcColour : String
  CarcColour : String
  drawTiles : Bool
  drawArcs : Bool
  reflectX : Bool
  drawRhombuses : Bool
  rotate : Q5
  flipY : Bool
  flipX : Bool

/-- The engine parameters: `scale`, `ngen` and the configuration
(`penrose.js:219-254`). -/
structure P3 where
  scale : Q5
  ngen : Nat
  config : Config

/-- `PenroseP3.inflate` (`penrose.js:260-265`): replace every tile by its
inflation children, preserving order (`forEach` + push-spread is exactly a
flat map). -/
def inflateAll (l : List Tile) : List Tile := l.flatMap Tile.inflate

/-- The `for (let i = this.ngen; i > 0; i--) this.inflate()` loop of
`make_tiling` (`penrose.js:321-323`). -/
def inflateLoop : Nat → List Tile → List Tile
  | 0, l => l
  | n + 1, l => inflateLoop n (inflateAll l)

/-- `PenroseP3.add_conjugate_elements` (`penrose.js:286-289`). -/
def add_conjugate_elements (l : List Tile) : List Tile := l ++ l.map Tile.conjugate

/-- `PenroseP3.rotate` (`penrose.js:291-299`): multiply every vertex by
`cos θ + i·sin θ`.  `Math.cos`/`Math.sin` are transcendental, so the
embedding takes them as function parameters; no claim below depends on
their values. -/
def rotateAll (cosF sinF : Q5 → Q5) (theta : Q5) (l : List Tile) : List Tile :=
  let rot : Complexv := ⟨cosF theta, sinF theta⟩
  l.map fun e => ⟨e.kind, rot.multc e.A, rot.multc e.B, rot.multc e.C⟩

/-- `PenroseP3.flip_y` (`penrose.js:301-308`): negate every x-coordinate. -/
def flipYAll (l : List Tile) : List Tile :=
  l.map fun e =>
    ⟨e.kind, ⟨e.A.real.neg, e.A.imag⟩, ⟨e.B.real.neg, e.B.imag⟩, ⟨e.C.real.neg, e.C.imag⟩⟩

/-- `PenroseP3.flip_x` (`penrose.js:310-317`): conjugate every vertex. -/
def flipXAll (l : List Tile) : List Tile :=
  l.map fun e => ⟨e.kind, e.A.conjc, e.B.conjc, e.C.conjc⟩

/-- JS truthiness of the configured rotation angle (`if (theta)`,
`penrose.js:331`): the *value* zero is falsy. -/
def Q5.isZero (x : Q5) : Bool := x.a.num == 0 && x.b.num == 0

/-- `PenroseP3.make_tiling` (`penrose.js:319-340`): `ngen` inflation
passes; dedup if rhombuses are drawn; append conjugates and dedup again if
x-reflection is on; rotate if the angle is truthy; flip about y; flip
about x. -/
def make_tiling (cosF sinF : Q5 → Q5) (p : P3) (l0 : List Tile) : List Tile :=
  let l1 := inflateLoop p.ngen l0
  let l2 := if p.config.drawRhombuses then remove_dupes l1 else l1
  let l3 := if p.config.reflectX then remove_dupes (add_conjugate_elements l2) else l2
  let l4 := if Q5.isZero p.config.rotate then l3
    else rotateAll cosF sinF p.config.rotate l3
  let l5 := if p.config.flipY then flipYAll l4 else l4
  if p.config.flipX then flipXAll l5 else l5

/-- The build pipeline exactly as claim C7 words it: `ngen` iterated
flat-map inflation passes, then conditional dedup, conditional
conjugate-append plus dedup, conditional rotation (iff the angle is
nonzero), conditional y-flip, conditional x-flip — in this order. -/
def buildClaimed (cosF sinF : Q5 → Q5) (p : P3) (l0 : List Tile) : List Tile :=
  let l1 := (fun l : List Tile => l.flatMap Tile.inflate)^[p.ngen] l0
  let l2 := if p.config.drawRhombuses then remove_dupes l1 else l1
  let l3 := if p.config.reflectX then remove_dupes (l2 ++ l2.map Tile.conjugate) else l2
  let l4 := if Q5.isZero p.config.rotate = false then
      rotateAll cosF sinF p.config.rotate l3
    else l3
  let l5 := if p.config.flipY then flipYAll l4 else l4
  if p.config.flipX then flipXAll l5 else l5

/-- Zero-pad a natural number to six digits. -/
def pad6 (n : Nat) : String :=
  let s := toString n
  String.mk (List.replicate (6 - s.length) '0') ++ s

/-- JS `Number.prototype.toFixed(6)` on the exact rational `num/den`:
round half away from zero at the sixth decimal (binary-double rounding
artifacts of the original are outside the numeric model). -/
def ratStr6 (x : Qv) : String :=
  let sgn := if x.num < 0 then "-" else ""
  let m := (x.num.natAbs * 2000000 + x.den) / (2 * x.den)
  sgn ++ toString (m / 1000000) ++ "." ++ pad6 (m % 1000000)

/-- Decimal rendering of a coordinate.  Rational values render exactly as
`toFixed(6)`; a value with a genuine `√5` part renders with an explicit
symbolic tail (a stand-in for its decimal expansion — no verified claim
inspects those digits). -/
def numStr (x : Q5) : String :=
  if x.b.num == 0 then ratStr6 x.a
  else "(" ++ ratStr6 x.a ++ "+" ++ ratStr6 x.b ++ "*sqrt5)"

/-- The path template `line` (`penrose.js:2-5`):
`m x,y l dx,dy ... z` in relative syntax. -/
def lineStr (first : Complexv) (args : List Complexv) : String :=
  let points := String.intercalate " "
    (args.map fun q => "l" ++ numStr q.real ++ "," ++ numStr q.imag)
  "m" ++ numStr first.real ++ "," ++ numStr first.imag ++ " " ++ points ++ "z"

/-- `RobinsonTriangle.path` (`penrose.js:95-105`): the closed rhombus
outline `A, B-A, C-B, -(B-A)` or the triangle outline `A, B-A, C-B`. -/
def Tile.path (t : Tile) (rhombus : Bool) : String :=
  let ab := t.B.minus t.A
  let bc := t.C.minus t.B
  if rhombus then lineStr t.A [ab, bc, ab.negc] else lineStr t.A [ab, bc]

/-- The arc template `arc` (`penrose.js:6-7`):
`M sx sy A r r 0 0 0 ex ey`, with the flags fixed at the literal `0 0 0`.
The radius prints via `numStr` of the carried square (see `ArcD`). -/
def arcStr (d : ArcD) : String :=
  "M " ++ numStr d.start.real ++ " " ++ numStr d.start.imag ++
    " A " ++ numStr d.r2 ++ " " ++ numStr d.r2 ++ " 0 0 0 " ++
    numStr d.stop.real ++ " " ++ numStr d.stop.imag

/-- `RobinsonTriangle.arcs` (`penrose.js:135-148`): `D = A - B + C`, then
the two arcs at `A` and at `C`.  `none` propagates the half-arc
`TypeError` (see `get_arc_d`). -/
def Tile.arcs (t : Tile) (half_arc : Bool) : Option (String × String) :=
  let D := (t.A.minus t.B).plus t.C
  match get_arc_d t.A t.B D half_arc, get_arc_d t.C t.B D half_arc with
  | some a1, some a2 => some (arcStr a1, arcStr a2)
  | _, _ => none

/-- Hexadecimal rendering of a natural number (JS `toString(16)`). -/
def toHex (n : Nat) : String := String.mk (Nat.toDigits 16 n)

/-- Truncation toward zero (JS `parseInt` applied to a number). -/
def Qv.trunc (x : Qv) : Int := x.num.tdiv (x.den : Int)

/-- `randHex` (`penrose.js:1`): `#` followed by the hex digits of
`min + parseInt(r * (max - min))`, where `r` is the drawn random value. -/
def randHex (lo hi : Int) (r : Qv) : String :=
  "#" ++ toHex (lo + (r.mul (Qv.ofInt (hi - lo))).trunc).toNat

/-- `PenroseP3.get_tile_colour` (`penrose.js:342-362`).  The random draw is
modelled by a stream `rng` and a cursor `k`; a random colour consumes one
draw, every other path leaves the cursor unchanged. -/
def get_tile_colour (cfg : Config) (e : Tile) (rng : Nat → Qv) (k : Nat) : String × Nat :=
  if cfg.randomTileColours then (randHex 0 4095 (rng k), k + 1)
  else
    match e.kind with
    | TileKind.L =>
      match cfg.LtileColour with
      | ColourSpec.fn f => (f e, k)
      | ColourSpec.const s => (s, k)
    | TileKind.S =>
      match cfg.StileColour with
      | ColourSpec.fn f => (f e, k)
      | ColourSpec.const s => (s, k)

/-- The filled `<path .../>` element for one tile (`penrose.js:384-386`). -/
def tileElem (cfg : Config) (colour : String) (e : Tile) : String :=
  "<path fill=\"" ++ colour ++ "\" fill-opacity=\"" ++ numStr cfg.tileOpacity ++
    "\" d=\"" ++ e.path cfg.drawRhombuses ++ "\"/>"

/-- The two arc `<path .../>` elements for one tile when arc drawing is on
(`penrose.js:387-393`); `none` propagates the half-arc `TypeError`. -/
def arcElems (cfg : Config) (e : Tile) : Option (List String) :=
  if cfg.drawArcs then
    match e.arcs (!cfg.drawRhombuses) with
    | none => none
    | some (a1, a2) =>
      some ["<path fill=\"none\" stroke=\"" ++ cfg.AarcColour ++ "\" d=\"" ++ a1 ++ "\" />",
            "<path fill=\"none\" stroke=\"" ++ cfg.CarcColour ++ "\" d=\"" ++ a2 ++ "\" />"]
  else some []

/-- The per-tile loop of `make_svg` (`penrose.js:382-394`): for each tile,
optionally a filled path element, then optionally the two arc path
elements; a half-arc `TypeError` aborts the whole rendering (`none`). -/
def svgTiles (cfg : Config) (rng : Nat → Qv) : List Tile → Nat → Option (List String × Nat)
  | [], k => some ([], k)
  | e :: rest, k =>
    let tc : List String × Nat :=
      if cfg.drawTiles then
        let ck := get_tile_colour cfg e rng k
        ([tileElem cfg ck.1 e], ck.2)
      else ([], k)
    match arcElems cfg e with
    | none => none
    | some ap =>
      match svgTiles cfg rng rest tc.2 with
      | none => none
      | some (ls, k2) => some (tc.1 ++ ap ++ ls, k2)

/-- The colour a tile resolves to when random colours are off
(the non-random branches of `get_tile_colour`, `penrose.js:348-361`). -/
def plainColour (cfg : Config) (e : Tile) : String :=
  match e.kind with
  | TileKind.L =>
    match cfg.LtileColour with
    | ColourSpec.fn f => f e
    | ColourSpec.const s => s
  | TileKind.S =>
    match cfg.StileColour with
    | ColourSpec.fn f => f e
    | ColourSpec.const s => s

/-- The per-tile loop with random colours off: no random draw occurs, so
the outcome does not depend on the stream or the cursor. -/
def svgTilesPure (cfg : Config) : List Tile → Option (List String)
  | [] => some []
  | e :: rest =>
    let tl : List String := if cfg.drawTiles then [tileElem cfg (plainColour cfg e) e] else []
    match arcElems cfg e with
    | none => none
    | some ap =>
      match svgTilesPure cfg rest with
      | none => none
      | some ls => some (tl ++ ap ++ ls)

/-- Powers in ℚ(√5) (`psi ** ngen`). -/
def Q5.pow (x : Q5) : Nat → Q5
  | 0 => Q5.ofInt 1
  | n + 1 => x.mul (Q5.pow x n)

/-- The `<svg ...>` opening lines of `make_svg` (`penrose.js:367-375`),
with the viewBox centred at the origin and sized `2·scale·margin`. -/
def svgHeader (cfg : Config) (scale : Q5) : List String :=
  let xmin := (scale.mul cfg.margin).neg
  let wdt := (Q5.ofInt 2).mul (scale.mul cfg.margin)
  let viewbox := numStr xmin ++ " " ++ numStr xmin ++ " " ++ numStr wdt ++ " " ++ numStr wdt
  ["<svg width=\"" ++ cfg.width ++ "\" height=\"" ++ cfg.height ++ "\" viewBox=\"" ++
     viewbox ++ "\"",
   " preserveAspectRatio=\"xMidYMid meet\" version=\"1.1\"",
   " baseProfile=\"full\" xmlns=\"http://www.w3.org/2000/svg\">"]

/-- The styling group line of `make_svg` (`penrose.js:377-380`): the stroke
width scales as `psi ^ ngen · scale · base-stroke-width`. -/
def svgGroupLine (cfg : Config) (scale : Q5) (ngen : Nat) : String :=
  let strokeWidth := ((psi.pow ngen).mul scale).mul cfg.baseStrokeWidth
  "<g style=\"stroke:" ++ cfg.strokeColour ++ ";stroke-width: " ++ numStr strokeWidth ++
    "; stroke-linejoin: round;\">"

/-- `PenroseP3.make_svg` (`penrose.js:364-397`): header lines, the styling
group, the per-tile elements, and the closing tags, joined by newlines. -/
def make_svg (p : P3) (l : List Tile) (rng : Nat → Qv) (k : Nat) : Option (String × Nat) :=
  match svgTiles p.config rng l k with
  | none => none
  | some (tl, k2) =>
    some (String.intercalate "\n"
      (svgHeader p.config p.scale ++ [svgGroupLine p.config p.scale p.ngen] ++ tl ++
        ["</g>\n</svg>"]), k2)

/-- `make_svg` as a state transformer on the engine: the method reads
`this.elements` but performs no assignment to it nor to any tile field
(`penrose.js:364-397`), so the translated state component is returned
unchanged. -/
def render (p : P3) (l : List Tile) (rng : Nat → Qv) (k : Nat) :
    Option (String × Nat) × List Tile :=
  (make_svg p l rng k, l)

/-- The default configuration of the engine constructor
(`penrose.js:231-249`), with the numeric options as exact rationals. -/
def defaultConfig : Config :=
  ⟨"100%", "100%", "#fff", ⟨⟨1, 20⟩, ⟨0, 1⟩⟩, ⟨⟨21, 20⟩, ⟨0, 1⟩⟩, ⟨⟨3, 5⟩, ⟨0, 1⟩⟩,
   false, ColourSpec.const "#08f", ColourSpec.const "#0035f3", "#f00", "#00f",
   true, false, true, true, ⟨⟨0, 1⟩, ⟨0, 1⟩⟩, false, false⟩

/-- A default engine: `scale = 200`, `ngen = 4`, default options. -/
def defaultP3 : P3 := ⟨Q5.ofInt 200, 4, defaultConfig⟩

example : Q5.veq (psi.mul psi) psi2 := by decide

example : Q5.veq (Q5.mul sqrt5 sqrt5) (Q5.ofInt 5) := by decide

/-- Literal value of `psi` after evaluating `(√5 - 1)/2` in the embedding. -/
theorem psi_eval : psi = ⟨⟨-8, 16⟩, ⟨8, 16⟩⟩ := by decide

/-- Literal value of `psi2 = 1 - psi` in the embedding. -/
theorem psi2_eval : psi2 = ⟨⟨24, 16⟩, ⟨-8, 16⟩⟩ := by decide

/-- C1: inflating a Large tile `(A, B, C)` yields exactly the three children
`Large(D, E, A)`, `Small(E, D, B)`, `Large(C, D, B)` — in this order — where
`D = A·ψ² + C·ψ` and `E = A·ψ² + B·ψ`, `ψ = (√5-1)/2`, and `ψ² = 1-ψ`. -/
theorem BtileL_inflate_matches_spec (A B C : Complexv) :
    Q5.veq specPsiSq ((Q5.ofInt 1).sub specPsi) ∧
    List.Forall₂ Tile.veq (Tile.inflate ⟨TileKind.L, A, B, C⟩)
      [⟨TileKind.L, specLargeD A C, specLargeE A B, A⟩,
       ⟨TileKind.S, specLargeE A B, specLargeD A C, B⟩,
       ⟨TileKind.L, C, specLargeD A C, B⟩] := by
  refine ⟨by decide, ?_⟩
  have hpsiS : specPsi = ⟨⟨-8, 16⟩, ⟨8, 16⟩⟩ := by decide
  have hpsiSq : specPsiSq = ⟨⟨98304, 65536⟩, ⟨-32768, 65536⟩⟩ := by decide
  refine List.Forall₂.cons ?_ (List.Forall₂.cons ?_ (List.Forall₂.cons ?_ List.Forall₂.nil)) <;>
    refine ⟨rfl, ?_⟩ <;>
    simp only [Tile.inflate, specLargeD, specLargeE, hpsiS, hpsiSq, psi_eval, psi2_eval,
      Complexv.smul, Complexv.plus, Complexv.veq, Q5.add, Q5.mul, Q5.veq, Qv.veq,
      Qv.add, Qv.mul, Qv.ofInt] <;>
    repeat' apply And.intro <;>
    push_cast <;>
    ring_nf

/-- C2: inflating a Small tile `(A, B, C)` yields exactly the two children
`Small(D, C, A)` and `Large(C, D, B)` — in this order — where
`D = A·ψ + B·ψ²` with `ψ = (√5-1)/2`. -/
theorem BtileS_inflate_matches_spec (A B C : Complexv) :
    List.Forall₂ Tile.veq (Tile.inflate ⟨TileKind.S, A, B, C⟩)
      [⟨TileKind.S, specSmallD A B, C, A⟩,
       ⟨TileKind.L, C, specSmallD A B, B⟩] := by
  have hpsiS : specPsi = ⟨⟨-8, 16⟩, ⟨8, 16⟩⟩ := by decide
  have hpsiSq : specPsiSq = ⟨⟨98304, 65536⟩, ⟨-32768, 65536⟩⟩ := by decide
  refine List.Forall₂.cons ?_ (List.Forall₂.cons ?_ List.Forall₂.nil) <;>
    refine ⟨rfl, ?_⟩ <;>
    simp only [Tile.inflate, specSmallD, hpsiS, hpsiSq, psi_eval, psi2_eval,
      Complexv.smul, Complexv.plus, Complexv.veq, Q5.add, Q5.mul, Q5.veq, Qv.veq,
      Qv.add, Qv.mul, Qv.ofInt] <;>
    repeat' apply And.intro <;>
    push_cast <;>
    ring_nf

/-- Helper: a value of ℚ(√5) whose components are the negation of a
positive value is not positive. -/
theorem Q5.posP_not_of_neg_components (x y : Q5)
    (h1 : x.a.num = -y.a.num) (h2 : x.a.den = y.a.den)
    (h3 : x.b.num = -y.b.num) (h4 : x.b.den = y.b.den)
    (hy : Q5.posP y) : ¬ Q5.posP x := by
  intro hx
  unfold Q5.posP at hx hy
  rw [h1, h2, h3, h4] at hx
  rcases hx with ⟨ha, hb, hc⟩ | ⟨ha, hb, hc⟩ | ⟨ha, hb, hc⟩ <;>
    rcases hy with ⟨ha', hb', hc'⟩ | ⟨ha', hb', hc'⟩ | ⟨ha', hb', hc'⟩ <;>
    try simp only [neg_sq] at hc
  · omega
  · have h0 : y.a.num = 0 := by omega
    rw [h0] at hc'
    nlinarith [sq_nonneg (y.b.num * (y.a.den : Int))]
  · have h0 : y.b.num = 0 := by omega
    rw [h0] at hc'
    nlinarith [sq_nonneg (y.a.num * (y.b.den : Int))]
  · have h0 : y.a.num = 0 := by omega
    rw [h0] at hc
    nlinarith [sq_nonneg (y.b.num * (y.a.den : Int))]
  · omega
  · linarith
  · have h0 : y.b.num = 0 := by omega
    rw [h0] at hc
    nlinarith [sq_nonneg (y.a.num * (y.b.den : Int))]
  · linarith
  · omega

/-- Helper: the 2D cross product is antisymmetric in sign — if
`cross z w > 0` then `cross w z` is not `> 0`. -/
theorem Complexv.cross_posb_antisymm (z w : Complexv)
    (h : Q5.posb (z.cross w) = true) : Q5.posb (w.cross z) = false := by
  rw [Q5.posb, decide_eq_true_eq] at h
  rw [Q5.posb, decide_eq_false_iff_not]
  refine Q5.posP_not_of_neg_components _ _ ?_ ?_ ?_ ?_ h <;>
    simp only [Complexv.cross, Q5.sub, Q5.mul, Qv.sub, Qv.mul, Qv.add, Q5.add, Qv.ofInt] <;>
    push_cast <;>
    ring

/-- C5 (code bug): for *every* input, requesting the half-arc variant of
`get_arc_d` fails — `penrose.js:124` invokes the nonexistent method
`Complex.add` (the class only defines `plus`), so the call throws a
`TypeError` instead of returning the recomputed arc descriptor that the
spec (and the surrounding code and comments) intend. -/
theorem get_arc_d_half_arc_raises (U V W : Complexv) :
    get_arc_d U V W true = none := rfl

/-- C6: whenever `get_arc_d` emits an arc descriptor, the descriptor is the
pair (midpoint of `UV`, midpoint of `UW`) *swapped* exactly when the 2D
cross product of `(start - U)` and `(end - U)` is positive; consequently
the emitted descriptor always satisfies `cross (start-U) (end-U) ≤ 0`, the
consistent clockwise minor-arc orientation.  (The sweep flags of the
emitted command are the literal `0 0` of the `arc` template — see `ArcD`
and `arcStr`.) -/
theorem get_arc_d_orientation (U V W : Complexv) (ha : Bool) (d : ArcD)
    (h : get_arc_d U V W ha = some d) :
    (Q5.posb (((U.middle V).minus U).cross ((U.middle W).minus U)) = true →
      d = ⟨U.middle W, ((V.minus U).divScalar (Q5.ofInt 2)).absSq, U.middle V⟩) ∧
    (Q5.posb (((U.middle V).minus U).cross ((U.middle W).minus U)) = false →
      d = ⟨U.middle V, ((V.minus U).divScalar (Q5.ofInt 2)).absSq, U.middle W⟩) ∧
    Q5.posb ((d.start.minus U).cross (d.stop.minus U)) = false := by
  cases ha with
  | true => exact absurd h (by simp [get_arc_d])
  | false =>
    rw [get_arc_d] at h
    by_cases hc : Q5.posb (((U.middle V).minus U).cross ((U.middle W).minus U)) = true
    · rw [if_neg (by simp), if_pos hc] at h
      obtain rfl := Option.some_inj.mp h
      refine ⟨fun _ => rfl, fun hf => absurd hc (by simp [hf]), ?_⟩
      exact Complexv.cross_posb_antisymm _ _ hc
    · rw [if_neg (by simp), if_neg hc] at h
      obtain rfl := Option.some_inj.mp h
      refine ⟨fun ht => absurd ht hc, fun _ => rfl, ?_⟩
      simpa using hc

/-- Witness for `get_arc_d_orientation`: at `U = 0, V = 2, W = 2i` the cross
product is positive, so the emitted descriptor is swapped and satisfies the
orientation property. -/
theorem get_arc_d_orientation_witness :
    get_arc_d arcU arcV arcW false =
      some ⟨arcU.middle arcW, ((arcV.minus arcU).divScalar (Q5.ofInt 2)).absSq,
        arcU.middle arcV⟩ ∧
    Q5.posb ((((arcU.middle arcW) : Complexv).minus arcU).cross
      (((arcU.middle arcV) : Complexv).minus arcU)) = false := by
  have h : get_arc_d arcU arcV arcW false =
      some ⟨arcU.middle arcW, ((arcV.minus arcU).divScalar (Q5.ofInt 2)).absSq,
        arcU.middle arcV⟩ := by decide
  exact ⟨h, (get_arc_d_orientation arcU arcV arcW false _ h).2.2⟩

/-- Shifting the scan index past the head of the array. -/
theorem keepAt_shift (x y : Complexv × Tile) (rest : List (Complexv × Tile)) (i : Nat) :
    keepAt (x :: y :: rest) (i + 2) = keepAt (y :: rest) (i + 1) := by
  simp [keepAt, List.getElem?_cons_succ]

/-- The indexed filter over the tail of the array equals the recursive
prev-element scan. -/
theorem filterMap_keepAt_tail :
    ∀ (rest : List (Complexv × Tile)) (x : Complexv × Tile),
      (List.range rest.length).filterMap (fun i => keepAt (x :: rest) (i + 1)) =
        dropNearPrev x.1 rest := by
  intro rest
  induction rest with
  | nil => intro x; rfl
  | cons y rest' ih =>
    intro x
    rw [List.length_cons, List.range_succ_eq_map, List.filterMap_cons, List.filterMap_map]
    have h0 : keepAt (x :: y :: rest') 1 =
        if ((y.1.minus x.1).absSq).ltb TOL5sq then none else some y.2 := by
      simp [keepAt]
    have hs : ((fun i => keepAt (x :: y :: rest') (i + 1)) ∘ Nat.succ) =
        fun i => keepAt (y :: rest') (i + 1) := by
      funext i
      exact keepAt_shift x y rest' i
    rw [h0, hs, ih y]
    by_cases hd : ((y.1.minus x.1).absSq).ltb TOL5sq = true
    · simp [dropNearPrev, hd]
    · simp [dropNearPrev, hd]

/-- `remove_dupes` equals: sort, then the recursive prev-element scan. -/
theorem remove_dupes_eq_scan (l : List Tile) :
    remove_dupes l = dedupeScan (sortEntries (l.map fun e => (Tile.centre e, e))) := by
  rw [remove_dupes]
  cases h : sortEntries (l.map fun e => (Tile.centre e, e)) with
  | nil => rfl
  | cons x rest =>
    rw [List.length_cons, List.range_succ_eq_map, List.filterMap_cons, List.filterMap_map]
    have h0 : keepAt (x :: rest) 0 = some x.2 := by simp [keepAt]
    have hs : (keepAt (x :: rest) ∘ Nat.succ) = fun i => keepAt (x :: rest) (i + 1) := rfl
    rw [h0, hs, filterMap_keepAt_tail rest x]
    rfl

/-- C3 counterexample: on `chainTiles` the code keeps only the first tile
(each later tile is within `TOL` of its immediate predecessor in the sorted
array), whereas the claim's previous-*kept* rule would also keep the third
tile (it is `1.6e-5 ≥ TOL` away from the first, kept, tile). -/
theorem remove_dupes_ne_prev_kept_rule :
    remove_dupes chainTiles ≠ removeDupesClaimed chainTiles := by decide

/-- C3 as amended: `remove_dupes` sorts the `(centre, tile)` pairs with the
comparator `tileCmp` and then drops a non-first tile exactly when its centre
is within `TOL` (Euclidean) of the centre of the *immediately preceding
tile of the sorted array* — kept or not — rather than of the previous kept
tile. -/
theorem remove_dupes_spec_amended (l : List Tile) :
    remove_dupes l = dedupeScan (sortEntries (l.map fun e => (Tile.centre e, e))) :=
  remove_dupes_eq_scan l

/-- A scan along pairwise separated entries keeps everything. -/
theorem dropNearPrev_of_far :
    ∀ (rest : List (Complexv × Tile)) (p : Complexv × Tile),
      List.Chain' farApart (p :: rest) → dropNearPrev p.1 rest = rest.map Prod.snd := by
  intro rest
  induction rest with
  | nil => intro p _; rfl
  | cons y rest' ih =>
    intro p hch
    rcases List.chain'_cons.mp hch with ⟨hpy, hch'⟩
    rw [dropNearPrev, if_neg (by rw [hpy]; exact Bool.false_ne_true), ih y hch', List.map_cons]

/-- Projecting the `(centre, tile)` pairing back to the tiles. -/
theorem map_snd_entries (m : List Tile) :
    (m.map fun e => (Tile.centre e, e)).map Prod.snd = m := by
  induction m with
  | nil => rfl
  | cons a as ih => simp [ih]

/-- On an ensemble already in comparator order with pairwise separated
centres, `remove_dupes` is the identity. -/
theorem remove_dupes_eq_self (l : List Tile)
    (h : List.Pairwise (fun x y => tileLe x y ∧ farApart x y)
      (l.map fun e => (Tile.centre e, e))) :
    remove_dupes l = l := by
  rw [remove_dupes_eq_scan]
  have hsorted : List.Sorted tileLe (l.map fun e => (Tile.centre e, e)) :=
    h.imp fun hx => hx.1
  have hfar : List.Chain' farApart (l.map fun e => (Tile.centre e, e)) :=
    (h.imp fun hx => hx.2).chain'
  rw [sortEntries, hsorted.insertionSort_eq]
  cases hl : l.map fun e => (Tile.centre e, e) with
  | nil =>
    have : l = [] := by
      cases l with
      | nil => rfl
      | cons a as => exact absurd hl (by simp)
    rw [this]
    rfl
  | cons x rest =>
    rw [hl] at hfar
    rw [dedupeScan, dropNearPrev_of_far rest x hfar]
    have : (x :: rest).map Prod.snd = l := by
      rw [← hl, map_snd_entries]
    simpa using this

/-- C4 counterexample: one pass over `cluster3` drops the second tile (near
the first) and keeps the third (far from the *second*); the kept pair is
then within `TOL`, so a second pass drops the third tile as well —
`removeDuplicates` is not idempotent. -/
theorem remove_dupes_not_idempotent :
    remove_dupes (remove_dupes cluster3) ≠ remove_dupes cluster3 := by decide

/-- C4 as amended: `remove_dupes` *is* idempotent (indeed the identity) on
every ensemble that is already in comparator order and whose consecutive
scan distances are all at least `TOL`; for general ensembles a second
application can drop further tiles (see the counterexample). -/
theorem remove_dupes_idempotent_of_separated (l : List Tile)
    (h : List.Pairwise (fun x y => tileLe x y ∧ farApart x y)
      (l.map fun e => (Tile.centre e, e))) :
    remove_dupes (remove_dupes l) = remove_dupes l := by
  rw [remove_dupes_eq_self l h]
  exact remove_dupes_eq_self l h

/-- Witness for the amended C4: two tiles with centres `0` and `1` satisfy
the separation hypothesis, and `remove_dupes` is idempotent there. -/
theorem remove_dupes_idempotent_witness :
    List.Pairwise (fun x y => tileLe x y ∧ farApart x y)
      ([dupeTileRe 0, dupeTileRe 2000000].map fun e => (Tile.centre e, e)) ∧
    remove_dupes (remove_dupes [dupeTileRe 0, dupeTileRe 2000000]) =
      remove_dupes [dupeTileRe 0, dupeTileRe 2000000] :=
  ⟨by decide, remove_dupes_idempotent_of_separated _ (by decide)⟩

/-- C10: a plain (finite) number `x` passed in any vertex position of any
triangle constructor is stored as the point `(x, 0)`, while a point
argument is stored unchanged. -/
theorem constructor_lifts_numbers (k : TileKind) (x : Q5) (z : Complexv) (v w : JsVal) :
    (mkRobinson k (JsVal.num x) v w).A = ⟨x, Q5.ofInt 0⟩ ∧
    (mkRobinson k (JsVal.pt z) v w).A = z ∧
    (mkRobinson k v (JsVal.num x) w).B = ⟨x, Q5.ofInt 0⟩ ∧
    (mkRobinson k v (JsVal.pt z) w).B = z ∧
    (mkRobinson k v w (JsVal.num x)).C = ⟨x, Q5.ofInt 0⟩ ∧
    (mkRobinson k v w (JsVal.pt z)).C = z :=
  ⟨rfl, rfl, rfl, rfl, rfl, rfl⟩

/-- The source's inflation loop is exactly `ngen` iterated inflation
passes. -/
theorem inflateLoop_eq_iterate :
    ∀ (n : Nat) (l : List Tile),
      inflateLoop n l = (fun l : List Tile => l.flatMap Tile.inflate)^[n] l := by
  intro n
  induction n with
  | zero => intro l; rfl
  | succ m ih =>
    intro l
    rw [inflateLoop, ih, Function.iterate_succ_apply]
    rfl

/-- C7: `make_tiling` performs exactly the pipeline of the claim, in the
claimed order, with each stage guarded by the claimed option. -/
theorem make_tiling_matches_pipeline (cosF sinF : Q5 → Q5) (p : P3) (l0 : List Tile) :
    make_tiling cosF sinF p l0 = buildClaimed cosF sinF p l0 := by
  rw [make_tiling, buildClaimed, inflateLoop_eq_iterate, add_conjugate_elements]
  cases hz : Q5.isZero p.config.rotate <;> simp [hz]

/-- With random colours off, the tile colour is `plainColour` and the
random cursor is untouched. -/
theorem get_tile_colour_of_not_random (cfg : Config) (e : Tile) (rng : Nat → Qv) (k : Nat)
    (h : cfg.randomTileColours = false) :
    get_tile_colour cfg e rng k = (plainColour cfg e, k) := by
  rw [get_tile_colour, if_neg (by rw [h]; exact Bool.false_ne_true)]
  simp only [plainColour]
  cases e.kind with
  | L => cases cfg.LtileColour <;> rfl
  | S => cases cfg.StileColour <;> rfl

/-- With random colours off, the per-tile loop ignores the random stream
and leaves the cursor where it was. -/
theorem svgTiles_of_not_random (cfg : Config) (h : cfg.randomTileColours = false) :
    ∀ (l : List Tile) (rng : Nat → Qv) (k : Nat),
      svgTiles cfg rng l k = (svgTilesPure cfg l).map (fun ls => (ls, k)) := by
  intro l
  induction l with
  | nil => intro rng k; rfl
  | cons e rest ih =>
    intro rng k
    cases hdt : cfg.drawTiles <;> cases ha : arcElems cfg e <;>
      cases hrest : svgTilesPure cfg rest <;>
      simp [svgTiles, svgTilesPure, get_tile_colour_of_not_random cfg e rng k h,
        hdt, ha, hrest, ih rng k]

/-- C8: with the random-colour option off and both tile colours constant,
`render` leaves the ensemble untouched (the method performs no assignment;
the translated state component is returned as-is) and the produced SVG text
is independent of the random stream and cursor — consecutive calls return
identical text. -/
theorem render_deterministic (p : P3) (l : List Tile)
    (hrand : p.config.randomTileColours = false)
    (_hL : p.config.LtileColour.isConst = true)
    (_hS : p.config.StileColour.isConst = true)
    (rng rng' : Nat → Qv) (k k' : Nat) :
    (render p l rng k).2 = l ∧
    ((render p l rng k).1).map Prod.fst = ((render p l rng' k').1).map Prod.fst := by
  refine ⟨rfl, ?_⟩
  rw [render, render, make_svg, make_svg, svgTiles_of_not_random _ hrand,
    svgTiles_of_not_random _ hrand]
  cases hrest : svgTilesPure p.config l <;> simp

/-- Witness for `render_deterministic`: under the default configuration
(random colours off, constant colours) two renders of a one-tile ensemble
from different random streams and cursors give the same text and leave the
ensemble alone. -/
theorem render_deterministic_witness :
    defaultP3.config.randomTileColours = false ∧
    defaultP3.config.LtileColour.isConst = true ∧
    defaultP3.config.StileColour.isConst = true ∧
    ((render defaultP3 [dupeTileRe 0] (fun _ => ⟨0, 1⟩) 0).2 = [dupeTileRe 0] ∧
      ((render defaultP3 [dupeTileRe 0] (fun _ => ⟨0, 1⟩) 0).1).map Prod.fst =
        ((render defaultP3 [dupeTileRe 0] (fun _ => ⟨1, 2⟩) 5).1).map Prod.fst) :=
  ⟨rfl, rfl, rfl,
    render_deterministic defaultP3 [dupeTileRe 0] rfl rfl rfl _ _ 0 5⟩

/-- Inflating an empty ensemble any number of times yields the empty
ensemble. -/
theorem inflateLoop_nil : ∀ n : Nat, inflateLoop n [] = [] := by
  intro n
  induction n with
  | zero => rfl
  | succ m ih =>
    rw [inflateLoop]
    exact ih

/-- C9: on an empty ensemble, `make_tiling` completes and leaves the
ensemble empty for every configuration, and `make_svg` completes (it never
hits the half-arc fault, which needs a tile) returning a document with the
svg root, the styling group and the closing tags, and zero per-tile path
elements. -/
theorem empty_build_and_render (cosF sinF : Q5 → Q5) (p : P3) (rng : Nat → Qv) (k : Nat) :
    make_tiling cosF sinF p [] = [] ∧
    svgTiles p.config rng [] k = some ([], k) ∧
    make_svg p [] rng k =
      some (String.intercalate "\n"
        (svgHeader p.config p.scale ++ [svgGroupLine p.config p.scale p.ngen] ++
          ["</g>\n</svg>"]), k) := by
  refine ⟨?_, rfl, ?_⟩
  · simp [make_tiling, inflateLoop_nil, remove_dupes, sortEntries, add_conjugate_elements,
      rotateAll, flipYAll, flipXAll, ite_self]
  · simp [make_svg, svgTiles]
